import Mathlib

/-!
Verification development for the Gemini chat exporter content script
(`src/content.js`).  The file shallowly embeds the pure logic of the two
script variants: content fingerprinting (`hashContent`), message
deduplication (`deduplicateMessages`), role classification
(`determineMessageRole`), timestamp formatting (`formatTimestamp`), the
markdown renderer (`formatAsMarkdown`, both variants), the accumulator
discipline of the extraction passes, the auto-scroll loop's control flow,
and the `extractChat` message handler.  DOM access, timers and the host
locale are abstracted into explicit inputs (observation lists, injected
clock strings, an abstract scroll view); machine concerns follow JS string
semantics modelled over `List Char` (code-point based, a stated modelling
choice for `substring`/`length`).
-/

/-- The whitespace class removed by JavaScript `String.prototype.trim`
(WhiteSpace plus LineTerminator code points). -/
def isJsWhitespace (c : Char) : Bool :=
  c == ' ' || c == '\t' || c == '\n' || c == '\r' || c == '\x0b' || c == '\x0c' ||
  c == '\u00a0' || c == '\u1680' || (0x2000 ≤ c.toNat && c.toNat ≤ 0x200a) ||
  c == '\u2028' || c == '\u2029' || c == '\u202f' || c == '\u205f' ||
  c == '\u3000' || c == '\ufeff'

/-- JS `trim` on a character list: drop whitespace at both ends. -/
def jsTrimList (cs : List Char) : List Char :=
  ((cs.dropWhile isJsWhitespace).reverse.dropWhile isJsWhitespace).reverse

/-- JS `String.prototype.trim`. -/
def jsTrim (s : String) : String := String.mk (jsTrimList s.toList)

/-- JS `s.substring(0, n)`. -/
def jsSubstringFirst (s : String) (n : Nat) : String := String.mk (s.toList.take n)

def emptyStr : String := ""

/-- The separator placed between prefix and length in a fingerprint. -/
def sepBar : String := "|"

/-- `hashContent` from `src/content.js` (identical in both variants):
`if (!content) return ''; return content.substring(0, 100).trim() + '|' + content.length;` -/
def hashContent (content : String) : String :=
  if content = emptyStr then emptyStr
  else jsTrim (jsSubstringFirst content 100) ++ sepBar ++ toString content.length

/-- Take the first `n` characters (spec-side recursion used to state the
fingerprint definition independently of the code's `substring`). -/
def firstChars : Nat → List Char → List Char
  | 0, _ => []
  | _, [] => []
  | n + 1, c :: rest => c :: firstChars n rest

/-- Second definition, following the spec's words: "`fingerprint` is defined
as: trimmed first 100 characters of content, concatenated with a separator
and the full content length". -/
def specFingerprint (content : String) : String :=
  jsTrim (String.mk (firstChars 100 content.toList)) ++ sepBar ++ toString content.length

/-- One extracted chat message: `{ role, content, timestamp }` objects pushed
by the extraction code.  Variant 2 never sets a timestamp, hence `Option`. -/
structure Message where
  role : String
  content : String
  timestamp : Option String
deriving DecidableEq

/-- Fingerprint of a message, as computed by the dedup code:
`hashContent(msg.content)`. -/
def hcOf (m : Message) : String := hashContent m.content

/-- The loop body of `deduplicateMessages`: walk the list with the `seen`
set (modelled as a list with membership, matching JS `Set.has`/`add`). -/
def dedupeAux (seen : List String) : List Message → List Message
  | [] => []
  | m :: rest =>
    if hcOf m ∈ seen then dedupeAux seen rest
    else m :: dedupeAux (hcOf m :: seen) rest

/-- `deduplicateMessages` from `src/content.js` (identical in both variants):
fresh `seen` set, keep a message iff its content hash was not seen before. -/
def deduplicateMessages (msgs : List Message) : List Message := dedupeAux [] msgs

/-- Spec-side dedup, following the spec's words: first occurrence (in the
order supplied) wins; later duplicates are dropped whole. -/
def specDedupe : List Message → List Message
  | [] => []
  | m :: rest => m :: specDedupe (rest.filter fun x => hcOf x != hcOf m)
termination_by msgs => msgs.length
decreasing_by
  simp only [List.length_cons]
  exact Nat.lt_succ_of_le (List.length_filter_le _ _)

/- ## Role classification (`determineMessageRole`) -/

def userRoleStr : String := "user"
def assistantRoleStr : String := "assistant"
def clsQuery : String := "query"
def clsHuman : String := "human"
def clsPrompt : String := "prompt"

/-- JS `String.prototype.toLowerCase` (ASCII view, sufficient for the
class-name vocabulary). -/
def jsToLower (s : String) : String := String.mk (s.toList.map Char.toLower)

/-- Substring occurrence over character lists, modelling JS
`String.prototype.includes`. -/
def listInfix (pat : List Char) : List Char → Bool
  | [] => pat.isEmpty
  | c :: rest => pat.isPrefixOf (c :: rest) || listInfix pat rest

/-- JS `s.includes(pat)`. -/
def strIncludes (s pat : String) : Bool := listInfix pat.toList s.toList

/-- `determineMessageRole` from `src/content.js`: lowercased
`el.className || ''` and `getAttribute('data-message-author-role')`
(`none` = attribute absent); one flat disjunction returning `'user'`,
with `'assistant'` as the default. -/
def determineMessageRole (className : Option String) (dataRole : Option String) : String :=
  let classNames := jsToLower (className.getD emptyStr)
  if dataRole == some userRoleStr ||
     strIncludes classNames userRoleStr ||
     strIncludes classNames clsQuery ||
     strIncludes classNames clsHuman ||
     strIncludes classNames clsPrompt
  then userRoleStr else assistantRoleStr

/-- Second definition, following the spec's words: "an explicit role
attribute wins; otherwise class-name substring matching against a
human-indicating vocabulary (user/query/human/prompt) classifies as human;
everything else defaults to assistant."  When the attribute is present the
element is classified per the attribute alone. -/
def specRolePrecedence (className : Option String) (dataRole : Option String) : String :=
  match dataRole with
  | some r => if r = userRoleStr then userRoleStr else assistantRoleStr
  | none =>
    let classNames := jsToLower (className.getD emptyStr)
    if strIncludes classNames userRoleStr ||
       strIncludes classNames clsQuery ||
       strIncludes classNames clsHuman ||
       strIncludes classNames clsPrompt
    then userRoleStr else assistantRoleStr

/- ## Timestamp formatting (`formatTimestamp`) -/

/-- Value of a nonempty digit list, most significant first. -/
def digitsVal (ds : List Char) : Nat := ds.foldl (fun n c => n * 10 + (c.toNat - 48)) 0

/-- Parse a maximal leading run of decimal digits; `none` when there is no
digit (JS `parseInt` yields `NaN`). -/
def parseDigits (cs : List Char) : Option Nat :=
  let ds := cs.takeWhile Char.isDigit
  if ds.isEmpty then none else some (digitsVal ds)

/-- JS `parseInt(value, 10)`: skip leading whitespace, optional sign,
maximal digit run; `none` models `NaN`.  (Exact integers; JS float rounding
above 2^53 is not modelled.) -/
def jsParseInt10 (s : String) : Option Int :=
  match s.toList.dropWhile isJsWhitespace with
  | '-' :: rest => (parseDigits rest).map fun n => -(n : Int)
  | '+' :: rest => (parseDigits rest).map fun n => (n : Int)
  | cs => (parseDigits cs).map fun n => (n : Int)

/-- The `num > 9999999999` cutoff of `formatTimestamp`. -/
def secondsThreshold : Int := 9999999999

/-- ECMAScript maximal time value: `new Date(t)` is invalid iff
`|t| > 8 640 000 000 000 000`. -/
def maxDateMs : Nat := 8640000000000000

/-- `num > 9999999999 ? num : num * 1000` from `formatTimestamp`. -/
def msInterp (n : Int) : Int := if n > secondsThreshold then n else n * 1000

/-- `formatTimestamp` from `src/content.js`, with the host locale renderer
(`Date.prototype.toLocaleString` on a millisecond time) and the host
generic date parser (`new Date(string)`, `none` = invalid date) injected as
parameters. -/
def formatTimestamp (render : Int → String) (parseDate : String → Option Int)
    (value : String) : String :=
  match jsParseInt10 value with
  | some num =>
    if (msInterp num).natAbs ≤ maxDateMs then render (msInterp num)
    else
      match parseDate value with
      | some t => render t
      | none => value
  | none =>
    match parseDate value with
    | some t => render t
    | none => value

/- ## Markdown renderer (`formatAsMarkdown`, both variants) -/

def nl2 : String := "\n\n"
def sepRule : String := "---\n\n"
def titleHash : String := "# "
def exportedPre : String := "*Exported from Gemini on "
def spaceStr : String := " "
def exportedPost : String := "*\n\n"
def msgsLabel : String := "**Messages:** "
def closeParenNl : String := ")\n\n"
def userHeaderV1 : String := "## 👤 User"
def geminiHeaderV1 : String := "## 🤖 Gemini"
def totalOpenV1 : String := " total (👤 User: "
def geminiMidV1 : String := ", 🤖 Gemini: "
def tsOpen : String := " — *"
def tsClose : String := "*"
def userHeaderV2 : String := "## ðŸ‘¤ User"
def geminiHeaderV2 : String := "## ðŸ¤– Gemini"
def totalOpenV2 : String := " total (ðŸ‘¤ User: "
def geminiMidV2 : String := ", ðŸ¤– Gemini: "

/-- Number of messages whose `role` equals `r` (the renderer's
`messages.filter(m => m.role === r).length`). -/
def countRole (r : String) (messages : List Message) : Nat :=
  (messages.filter fun m => m.role == r).length

/-- One message block of variant 1: role header, timestamp suffix when
present, blank line, content, blank line. -/
def messageBlockV1 (m : Message) : String :=
  (if m.role = userRoleStr then userHeaderV1 else geminiHeaderV1) ++
  (match m.timestamp with
   | some ts => tsOpen ++ ts ++ tsClose
   | none => emptyStr) ++
  nl2 ++ m.content ++ nl2

/-- One message block of variant 2: role header (mojibake emoji as in the
source), blank line, content, blank line.  No timestamp suffix exists in
this variant. -/
def messageBlockV2 (m : Message) : String :=
  (if m.role = userRoleStr then userHeaderV2 else geminiHeaderV2) ++
  nl2 ++ m.content ++ nl2

/-- The `messages.forEach((msg, index) => ...)` loop: emit the block, then
the rule when `index < messages.length - 1`. -/
def bodyAux (block : Message → String) (total : Nat) : Nat → List Message → String
  | _, [] => emptyStr
  | i, m :: rest =>
    block m ++ (if i < total - 1 then sepRule else emptyStr) ++
    bodyAux block total (i + 1) rest

/-- Header part shared by both renderer variants (title line, provenance
line with injected clock strings, summary line, leading rule). -/
def mdHeader (uOpen gMid dateStr tz : String) (messages : List Message)
    (title : String) : String :=
  titleHash ++ title ++ nl2 ++
  exportedPre ++ dateStr ++ spaceStr ++ tz ++ exportedPost ++
  msgsLabel ++ toString messages.length ++ uOpen ++
  toString (countRole userRoleStr messages) ++ gMid ++
  toString (countRole assistantRoleStr messages) ++ closeParenNl ++ sepRule

/-- `formatAsMarkdown`, variant 1 (`src/content.js` lines 429-473), with the
wall-clock date and timezone renderings injected. -/
def formatAsMarkdownV1 (dateStr tz : String) (messages : List Message)
    (title : String) : String :=
  mdHeader totalOpenV1 geminiMidV1 dateStr tz messages title ++
  bodyAux messageBlockV1 messages.length 0 messages

/-- `formatAsMarkdown`, variant 2 (`src/content.js` lines 988-1026). -/
def formatAsMarkdownV2 (dateStr tz : String) (messages : List Message)
    (title : String) : String :=
  mdHeader totalOpenV2 geminiMidV2 dateStr tz messages title ++
  bodyAux messageBlockV2 messages.length 0 messages

/-- Spec-side body: one block per message with the separating rule between
consecutive blocks, omitted after the final block. -/
def specJoinBlocks (block : Message → String) : List Message → String
  | [] => emptyStr
  | [m] => block m
  | m :: rest => block m ++ sepRule ++ specJoinBlocks block rest

/- ## The `extractChat` message handler (both variants) -/

/-- The `sendResponse` payload: `{success: true, markdown, title,
messageCount}` or `{success: false, error}`. -/
inductive ExtractResponse where
  | success (markdown : String) (title : String) (messageCount : Nat)
  | failure (error : String)
deriving DecidableEq

/-- The no-content error string of both handlers. -/
def noContentMessage : String :=
  "No chat messages found. Make sure you are on a Gemini chat page with an active conversation."

/-- Handler variant 1 (`src/content.js` lines 714-754), from the point the
traversal has produced `messages`: dedupe, reverse (collected newest-first),
fail on zero messages, otherwise render and report the count. -/
def extractChatV1 (dateStr tz : String) (messages : List Message)
    (title : String) : ExtractResponse :=
  let deduped := (deduplicateMessages messages).reverse
  if deduped.length = 0 then ExtractResponse.failure noContentMessage
  else ExtractResponse.success (formatAsMarkdownV1 dateStr tz deduped title) title deduped.length

/-- Handler variant 2 (`src/content.js` lines 1325-1365): same, without the
reverse (already chronological due to prepend logic). -/
def extractChatV2 (dateStr tz : String) (messages : List Message)
    (title : String) : ExtractResponse :=
  let deduped := deduplicateMessages messages
  if deduped.length = 0 then ExtractResponse.failure noContentMessage
  else ExtractResponse.success (formatAsMarkdownV2 dateStr tz deduped title) title deduped.length

/- ## Accumulator / Seen-Set discipline of the extraction passes -/

/-- One located message candidate, as produced by the DOM locator plus
`extractMessageContent` normalization: role, normalized content string, and
an opportunistic timestamp. -/
structure Observation where
  role : String
  content : String
  timestamp : Option String
deriving DecidableEq

/-- Variant 1 guarded push (`extractFromTurn`):
`if (content && !seenContent.has(hash)) { seenContent.add(hash);
messages.push({role, content: content.trim(), timestamp}); }`. -/
def processObsV1 (st : List Message × List String) (obs : Observation) :
    List Message × List String :=
  if obs.content ≠ emptyStr ∧ hashContent obs.content ∉ st.2 then
    (st.1 ++ [⟨obs.role, jsTrim obs.content, obs.timestamp⟩],
     hashContent obs.content :: st.2)
  else st

/-- Variant 2 guarded push (`extractVisibleMessages`):
`if (content && content.trim() && !seenContent.has(hash))`, no timestamp. -/
def processObsV2 (st : List Message × List String) (obs : Observation) :
    List Message × List String :=
  if obs.content ≠ emptyStr ∧ jsTrim obs.content ≠ emptyStr ∧
     hashContent obs.content ∉ st.2 then
    (st.1 ++ [⟨obs.role, jsTrim obs.content, none⟩],
     hashContent obs.content :: st.2)
  else st

/-- One variant-1 extraction pass: process every observation in order,
pushing straight into the shared accumulator. -/
def runPassV1 (st : List Message × List String) (pass : List Observation) :
    List Message × List String :=
  pass.foldl processObsV1 st

/-- One variant-2 extraction pass: collect `newMessages` against the shared
seen set, then `unshift` (prepend) or `push` (append) them onto the
accumulator. -/
def runPassV2 (st : List Message × List String) (prepend : Bool)
    (pass : List Observation) : List Message × List String :=
  let p := pass.foldl processObsV2 (([] : List Message), st.2)
  (if prepend then p.1 ++ st.1 else st.1 ++ p.1, p.2)

/-- The fresh per-request accumulator and seen set. -/
def initAcc : List Message × List String := ([], [])

/-- Run a whole variant-1 extraction request: a sequence of passes. -/
def runPassesV1 (passes : List (List Observation)) : List Message × List String :=
  passes.foldl runPassV1 initAcc

/-- Run a whole variant-2 extraction request: a sequence of passes, each
with its prepend flag. -/
def runPassesV2 (passes : List (Bool × List Observation)) : List Message × List String :=
  passes.foldl (fun st pb => runPassV2 st pb.1 pb.2) initAcc

/- ## The auto-scroll loop (`autoScrollConversation`, both variants) -/

/-- The shared mutable view, abstracted: scroll metrics are read off an
opaque state, `advance` is the effect of `scrollBy(-scrollStep)` plus the
base sleep and extraction, `settle` the effect of one adaptive poll. -/
structure ScrollView (S : Type) where
  scrollTop : S → Int
  scrollHeight : S → Int
  advance : S → S
  settle : S → S

/-- The inner adaptive-wait loop: up to `fuel` polls (3 in variant 1, 5 in
variant 2), stopping as soon as the scroll height stops changing.  (The
source's `newMessageCount === messages.length` conjunct compares a value to
itself and is always true, so only the height matters.) -/
def adaptiveSettle {S : Type} (V : ScrollView S) : Nat → S → Int → S × Int
  | 0, s, curH => (s, curH)
  | n + 1, s, curH =>
    let s2 := V.settle s
    let newH := V.scrollHeight s2
    if newH = curH then (s2, curH)
    else adaptiveSettle V n s2 newH

/-- `maxScrolls` from the source. -/
def maxScrolls : Nat := 500

/-- The `stuckCount >= 3` exit threshold. -/
def stuckThreshold : Nat := 3

/-- The main scroll loop, returning how many advance iterations (loop-body
executions, each performing one `scrollBy`) run before termination.  `fuel`
is `maxScrolls - scrollCount`; each completed iteration increments
`scrollCount`, and the loop also exits on stuck detection or on reaching
the top. -/
def scrollLoopAux {S : Type} (V : ScrollView S) (adaptFuel : Nat) :
    Nat → S → Nat → Nat
  | 0, _, _ => 0
  | fuel + 1, s, stuckCount =>
    let prevTop := V.scrollTop s
    let prevH := V.scrollHeight s
    let s1 := V.advance s
    let curTop := V.scrollTop s1
    let p := adaptiveSettle V adaptFuel s1 (V.scrollHeight s1)
    let stuck1 := if p.2 > prevH then 0 else stuckCount
    if (curTop - prevTop).natAbs < 10 then
      if stuck1 + 1 ≥ stuckThreshold then 1
      else if curTop ≤ 10 then 1
      else 1 + scrollLoopAux V adaptFuel fuel p.1 (stuck1 + 1)
    else
      if curTop ≤ 10 then 1
      else 1 + scrollLoopAux V adaptFuel fuel p.1 0

/-- Advance iterations of variant 1's loop (adaptive fuel 3). -/
def autoScrollAdvanceCountV1 {S : Type} (V : ScrollView S) (s : S) : Nat :=
  scrollLoopAux V 3 maxScrolls s 0

/-- Advance iterations of variant 2's loop (adaptive fuel 5). -/
def autoScrollAdvanceCountV2 {S : Type} (V : ScrollView S) (s : S) : Nat :=
  scrollLoopAux V 5 maxScrolls s 0

/- ## Remaining auxiliary definitions (seen-set evolution, concrete demo data) -/

/-- The seen set after `dedupeAux` has processed `msgs` starting from
`seen` (hashes are added exactly when a message is kept). -/
def seenAfter (seen : List String) (msgs : List Message) : List String :=
  msgs.foldl (fun s x => if hcOf x ∈ s then s else hcOf x :: s) seen

/-- A concrete locale renderer instance used for witnesses and
counterexamples: tags the millisecond time. -/
def renderTag (t : Int) : String := "LOCALE[" ++ toString t ++ "]"

/-- A host generic date parser recognizing nothing (every non-numeric
string is an invalid date). -/
def noParseDate : String → Option Int := fun _ => none

def helloStr : String := "hello"
def bigNumStr : String := "99999999999999999999"
def tsSecondsStr : String := "1700000000"
def demoDate : String := "January 1, 2025, 12:00 PM"
def demoTz : String := "UTC"
def demoTitle : String := "Demo"
def demoTime : String := "07:45"
def queryClassStr : String := "query-container"
def modelStr : String := "model"

def demoMsgU : Message := ⟨userRoleStr, helloStr, none⟩
def demoMsgA : Message := ⟨assistantRoleStr, helloStr, none⟩
def demoTsMsg : Message := ⟨userRoleStr, helloStr, some demoTime⟩

def demoObsA : Observation := ⟨userRoleStr, helloStr, none⟩
def demoObsB : Observation := ⟨assistantRoleStr, demoTitle, none⟩
def demoPassesV1 : List (List Observation) := [[demoObsA, demoObsB], [demoObsA], [demoObsB, demoObsA]]
def demoPassesV2 : List (Bool × List Observation) :=
  [(false, [demoObsA]), (true, [demoObsB, demoObsA]), (true, [demoObsB])]

/-- A fully stuck view: scroll position and extent never change. -/
def stuckView : ScrollView Unit :=
  ⟨fun _ => 100, fun _ => 1000, fun s => s, fun s => s⟩

/-- A view whose scroll position never changes (constant 100) while the
scroll extent keeps growing at every advance and settle step. -/
def growView : ScrollView Nat :=
  ⟨fun _ => 100, fun n => (n : Int), fun n => n + 1, fun n => n + 1⟩

/- ## Helper lemmas: deduplication -/

theorem dedupeAux_sublist (seen : List String) (msgs : List Message) :
    (dedupeAux seen msgs).Sublist msgs := by
  induction msgs generalizing seen with
  | nil => simp [dedupeAux]
  | cons m rest ih =>
    by_cases h : hcOf m ∈ seen
    · simp only [dedupeAux, if_pos h]
      exact (ih seen).cons m
    · simp only [dedupeAux, if_neg h]
      exact (ih (hcOf m :: seen)).cons₂ m

theorem mem_dedupeAux_not_seen (seen : List String) (msgs : List Message) :
    ∀ x ∈ dedupeAux seen msgs, hcOf x ∉ seen := by
  induction msgs generalizing seen with
  | nil => simp [dedupeAux]
  | cons m rest ih =>
    intro x hx
    by_cases h : hcOf m ∈ seen
    · rw [dedupeAux, if_pos h] at hx
      exact ih seen x hx
    · rw [dedupeAux, if_neg h] at hx
      rcases List.mem_cons.mp hx with rfl | hx'
      · exact h
      · intro hmem
        exact ih (hcOf m :: seen) x hx' (List.mem_cons_of_mem _ hmem)

theorem dedupeAux_hashes_nodup (seen : List String) (msgs : List Message) :
    ((dedupeAux seen msgs).map hcOf).Nodup := by
  induction msgs generalizing seen with
  | nil => simp [dedupeAux]
  | cons m rest ih =>
    by_cases h : hcOf m ∈ seen
    · simpa [dedupeAux, h] using ih seen
    · simp only [dedupeAux, if_neg h, List.map_cons, List.nodup_cons]
      refine ⟨?_, ih (hcOf m :: seen)⟩
      intro hmem
      rcases List.mem_map.mp hmem with ⟨x, hx, hhx⟩
      refine mem_dedupeAux_not_seen _ _ x hx ?_
      rw [hhx]
      exact List.mem_cons_self _ _

theorem dedupeAux_eq_self (seen : List String) (msgs : List Message)
    (h1 : (msgs.map hcOf).Nodup) (h2 : ∀ x ∈ msgs, hcOf x ∉ seen) :
    dedupeAux seen msgs = msgs := by
  induction msgs generalizing seen with
  | nil => simp [dedupeAux]
  | cons m rest ih =>
    have hm : hcOf m ∉ seen := h2 m (List.mem_cons_self _ _)
    rw [dedupeAux, if_neg hm]
    have hmap : (hcOf m :: rest.map hcOf).Nodup := by simpa using h1
    have hhead : hcOf m ∉ rest.map hcOf := (List.nodup_cons.mp hmap).1
    have htail : (rest.map hcOf).Nodup := (List.nodup_cons.mp hmap).2
    congr 1
    refine ih (hcOf m :: seen) htail ?_
    intro x hx hmem
    rcases List.mem_cons.mp hmem with heq | hin
    · refine hhead ?_
      rw [← heq]
      exact List.mem_map_of_mem _ hx
    · exact h2 x (List.mem_cons_of_mem _ hx) hin

theorem mem_map_dedupeAux (msgs : List Message) :
    ∀ (seen : List String) (h' : String),
      h' ∈ (dedupeAux seen msgs).map hcOf ↔ h' ∈ msgs.map hcOf ∧ h' ∉ seen := by
  induction msgs with
  | nil => intro seen h'; simp [dedupeAux]
  | cons m rest ih =>
    intro seen h'
    by_cases h : hcOf m ∈ seen
    · rw [dedupeAux, if_pos h, ih seen h']
      simp only [List.map_cons, List.mem_cons]
      constructor
      · rintro ⟨a, b⟩; exact ⟨Or.inr a, b⟩
      · rintro ⟨a | a, b⟩
        · exact absurd (a ▸ h) b
        · exact ⟨a, b⟩
    · rw [dedupeAux, if_neg h]
      simp only [List.map_cons, List.mem_cons, ih (hcOf m :: seen) h']
      by_cases hx : h' = hcOf m
      · subst hx
        simp [h]
      · simp [hx, List.mem_cons]

theorem dedupeAux_eq_spec (msgs : List Message) :
    ∀ seen, dedupeAux seen msgs =
      specDedupe (msgs.filter fun x => !decide (hcOf x ∈ seen)) := by
  induction msgs with
  | nil => intro seen; simp [dedupeAux, specDedupe]
  | cons m rest ih =>
    intro seen
    by_cases h : hcOf m ∈ seen
    · rw [dedupeAux, if_pos h, ih seen, List.filter_cons]
      simp [h]
    · rw [dedupeAux, if_neg h, List.filter_cons]
      have hb : (!decide (hcOf m ∈ seen)) = true := by simp [h]
      rw [hb]
      simp only [if_true]
      rw [specDedupe]
      congr 1
      rw [ih (hcOf m :: seen), List.filter_filter]
      congr 1
      apply List.filter_congr
      intro x hx
      by_cases hx1 : hcOf x = hcOf m <;> by_cases hx2 : hcOf x ∈ seen <;>
        simp [hx1, hx2, List.mem_cons]

theorem seenAfter_nil (seen : List String) : seenAfter seen [] = seen := rfl

theorem seenAfter_cons (seen : List String) (m : Message) (rest : List Message) :
    seenAfter seen (m :: rest) =
      seenAfter (if hcOf m ∈ seen then seen else hcOf m :: seen) rest := rfl

theorem seenAfter_subset (msgs : List Message) :
    ∀ seen, seen ⊆ seenAfter seen msgs := by
  induction msgs with
  | nil => intro seen; simp [seenAfter_nil]
  | cons m rest ih =>
    intro seen
    rw [seenAfter_cons]
    refine List.Subset.trans ?_ (ih _)
    by_cases h : hcOf m ∈ seen
    · rw [if_pos h]
      exact fun x hx => hx
    · rw [if_neg h]
      exact fun x hx => List.mem_cons_of_mem _ hx

theorem mem_seenAfter (msgs : List Message) :
    ∀ (seen : List String) (x : Message), x ∈ msgs → hcOf x ∈ seenAfter seen msgs := by
  induction msgs with
  | nil => intro seen x hx; exact absurd hx (List.not_mem_nil x)
  | cons m rest ih =>
    intro seen x hx
    rcases List.mem_cons.mp hx with rfl | hx'
    · rw [seenAfter_cons]
      refine seenAfter_subset rest _ ?_
      by_cases h : hcOf x ∈ seen
      · rw [if_pos h]; exact h
      · rw [if_neg h]; exact List.mem_cons_self _ _
    · rw [seenAfter_cons]
      exact ih _ x hx'

theorem dedupeAux_append (l r : List Message) :
    ∀ seen, dedupeAux seen (l ++ r) =
      dedupeAux seen l ++ dedupeAux (seenAfter seen l) r := by
  induction l with
  | nil => intro seen; simp [dedupeAux, seenAfter_nil]
  | cons m rest ih =>
    intro seen
    rw [List.cons_append, seenAfter_cons]
    by_cases h : hcOf m ∈ seen
    · rw [dedupeAux, if_pos h, dedupeAux, if_pos h, ih seen, if_pos h]
    · rw [dedupeAux, if_neg h, dedupeAux, if_neg h, ih (hcOf m :: seen), if_neg h,
        List.cons_append]

theorem dedupe_length_distinct (msgs : List Message) :
    (deduplicateMessages msgs).length = (msgs.map hcOf).toFinset.card := by
  have hnd := dedupeAux_hashes_nodup [] msgs
  have hset : ((deduplicateMessages msgs).map hcOf).toFinset = (msgs.map hcOf).toFinset := by
    ext h'
    simp only [List.mem_toFinset, deduplicateMessages]
    rw [mem_map_dedupeAux msgs [] h']
    simp
  calc (deduplicateMessages msgs).length
      = ((deduplicateMessages msgs).map hcOf).length := (List.length_map _ _).symm
    _ = ((deduplicateMessages msgs).map hcOf).toFinset.card :=
        (List.toFinset_card_of_nodup hnd).symm
    _ = (msgs.map hcOf).toFinset.card := by rw [hset]

/-- Claim C2: `deduplicateMessages` keeps, for each fingerprint value,
exactly the first message in supplied order whose content has that
fingerprint (later duplicates are dropped whole, captured by the spec-side
recursion `specDedupe`), and the output length equals the number of
distinct fingerprints among the input contents. -/
theorem deduplicateMessages_keeps_first_occurrences (msgs : List Message) :
    deduplicateMessages msgs = specDedupe msgs ∧
    (deduplicateMessages msgs).length =
      (msgs.map fun m => hashContent m.content).toFinset.card := by
  constructor
  · rw [deduplicateMessages, dedupeAux_eq_spec]
    congr 1
    simp
  · exact dedupe_length_distinct msgs

/-- Claim C9: `deduplicateMessages` is idempotent — applying it twice yields
exactly the same sequence as applying it once. -/
theorem deduplicateMessages_idempotent (msgs : List Message) :
    deduplicateMessages (deduplicateMessages msgs) = deduplicateMessages msgs := by
  refine dedupeAux_eq_self [] _ (dedupeAux_hashes_nodup [] msgs) ?_
  intro x _
  exact List.not_mem_nil _

/-- Claim C10: dedup compares only the content field: a later message whose
content shares the fingerprint of an earlier one is dropped whole
(regardless of its role or timestamp), and every surviving entry is an
original input message (a sublist), so the first occurrence keeps its own
role and timestamp. -/
theorem deduplicateMessages_content_only :
    (∀ (l1 l2 l3 : List Message) (m1 m2 : Message),
        hashContent m1.content = hashContent m2.content →
        deduplicateMessages (l1 ++ m1 :: (l2 ++ m2 :: l3)) =
          deduplicateMessages (l1 ++ m1 :: (l2 ++ l3))) ∧
    ∀ msgs : List Message, (deduplicateMessages msgs).Sublist msgs := by
  constructor
  · intro l1 l2 l3 m1 m2 hh
    have e1 : l1 ++ m1 :: (l2 ++ m2 :: l3) = (l1 ++ m1 :: l2) ++ (m2 :: l3) := by
      simp
    have e2 : l1 ++ m1 :: (l2 ++ l3) = (l1 ++ m1 :: l2) ++ l3 := by
      simp
    rw [deduplicateMessages, deduplicateMessages, e1, e2,
      dedupeAux_append (l1 ++ m1 :: l2) (m2 :: l3) [],
      dedupeAux_append (l1 ++ m1 :: l2) l3 []]
    have hmem1 : hcOf m1 ∈ seenAfter [] (l1 ++ m1 :: l2) :=
      mem_seenAfter _ [] m1 (by simp)
    have h21 : hcOf m2 = hcOf m1 := hh.symm
    have hm : hcOf m2 ∈ seenAfter [] (l1 ++ m1 :: l2) := by
      rw [h21]; exact hmem1
    congr 1
    rw [dedupeAux, if_pos hm]
  · intro msgs
    exact dedupeAux_sublist [] msgs

/-- Witness for C10 at a concrete input: a user message and an assistant
message with identical content contribute exactly one entry, bearing the
first message's role. -/
theorem deduplicateMessages_content_only_witness :
    deduplicateMessages [demoMsgU, demoMsgA] = deduplicateMessages [demoMsgU] ∧
    deduplicateMessages [demoMsgU] = [demoMsgU] :=
  ⟨deduplicateMessages_content_only.1 [] [] [] demoMsgU demoMsgA rfl, by decide⟩

theorem firstChars_eq_take (n : Nat) (l : List Char) : firstChars n l = l.take n := by
  induction n generalizing l with
  | zero => simp [firstChars]
  | succ k ih =>
    cases l with
    | nil => simp [firstChars]
    | cons c rest => simp [firstChars, ih]

/-- Claim C3: `hashContent` is a deterministic pure function of the content
string, and for non-empty content it equals the trimmed first 100
characters of the content concatenated with the separator and the full
content length (the spec-side `specFingerprint`). -/
theorem hashContent_deterministic_and_spec (content : String) :
    (∀ other : String, content = other → hashContent content = hashContent other) ∧
    (content ≠ emptyStr → hashContent content = specFingerprint content) := by
  constructor
  · intro other h
    rw [h]
  · intro h
    rw [hashContent, if_neg h, specFingerprint, jsSubstringFirst, firstChars_eq_take]

/-- Witness for C3 at a concrete non-empty content. -/
theorem hashContent_deterministic_and_spec_witness :
    helloStr ≠ emptyStr ∧ hashContent helloStr = specFingerprint helloStr :=
  ⟨by decide, (hashContent_deterministic_and_spec helloStr).2 (by decide)⟩

/-- Claim C1: the extract handler never returns a success with zero
messages: when the deduplicated sequence is empty it returns the typed
failure carrying the no-content message (both variants), otherwise a
success whose `messageCount` equals the length of the non-empty
deduplicated sequence. -/
theorem extractChat_no_empty_success (d tz : String) (msgs : List Message)
    (title : String) :
    (deduplicateMessages msgs = [] →
      extractChatV1 d tz msgs title = ExtractResponse.failure noContentMessage ∧
      extractChatV2 d tz msgs title = ExtractResponse.failure noContentMessage) ∧
    (deduplicateMessages msgs ≠ [] →
      extractChatV1 d tz msgs title =
        ExtractResponse.success
          (formatAsMarkdownV1 d tz (deduplicateMessages msgs).reverse title) title
          (deduplicateMessages msgs).length ∧
      extractChatV2 d tz msgs title =
        ExtractResponse.success
          (formatAsMarkdownV2 d tz (deduplicateMessages msgs) title) title
          (deduplicateMessages msgs).length) ∧
    (∀ (md t : String) (n : Nat),
      (extractChatV1 d tz msgs title = ExtractResponse.success md t n ∨
       extractChatV2 d tz msgs title = ExtractResponse.success md t n) →
      0 < n ∧ n = (deduplicateMessages msgs).length) := by
  refine ⟨?_, ?_, ?_⟩
  · intro h
    constructor
    · simp [extractChatV1, h]
    · simp [extractChatV2, h]
  · intro h
    have hpos : 0 < (deduplicateMessages msgs).length := List.length_pos.mpr h
    have hne : ((deduplicateMessages msgs).reverse).length ≠ 0 := by
      simp only [List.length_reverse]
      exact Nat.pos_iff_ne_zero.mp hpos
    constructor
    · simp only [extractChatV1]
      rw [if_neg hne, List.length_reverse]
    · simp only [extractChatV2]
      rw [if_neg (Nat.pos_iff_ne_zero.mp hpos)]
  · intro md t n hOr
    by_cases hD : deduplicateMessages msgs = []
    · rcases hOr with h | h
      · simp [extractChatV1, hD] at h
      · simp [extractChatV2, hD] at h
    · have hpos : 0 < (deduplicateMessages msgs).length := List.length_pos.mpr hD
      have hne : ((deduplicateMessages msgs).reverse).length ≠ 0 := by
        simp only [List.length_reverse]
        exact Nat.pos_iff_ne_zero.mp hpos
      rcases hOr with h | h
      · simp only [extractChatV1] at h
        rw [if_neg hne] at h
        injection h with hmd ht hn
        rw [← hn, List.length_reverse]
        exact ⟨hpos, rfl⟩
      · simp only [extractChatV2] at h
        rw [if_neg (Nat.pos_iff_ne_zero.mp hpos)] at h
        injection h with hmd ht hn
        rw [← hn]
        exact ⟨hpos, rfl⟩

/-- Witness for C1 at concrete inputs: the empty traversal fails with the
no-content message, a one-message traversal succeeds with count 1. -/
theorem extractChat_no_empty_success_witness :
    extractChatV1 demoDate demoTz [] demoTitle =
      ExtractResponse.failure noContentMessage ∧
    extractChatV2 demoDate demoTz [demoMsgU] demoTitle =
      ExtractResponse.success
        (formatAsMarkdownV2 demoDate demoTz (deduplicateMessages [demoMsgU]) demoTitle)
        demoTitle (deduplicateMessages [demoMsgU]).length :=
  ⟨((extractChat_no_empty_success demoDate demoTz [] demoTitle).1 rfl).1,
   (((extractChat_no_empty_success demoDate demoTz [demoMsgU] demoTitle).2).1
      (by decide)).2⟩

/- ## Helper lemmas: accumulator invariant -/

theorem processObsV1_inv (st : List Message × List String) (obs : Observation)
    (ht : jsTrim obs.content = obs.content)
    (h1 : (st.1.map hcOf).Nodup) (h2 : ∀ m ∈ st.1, hcOf m ∈ st.2) :
    ((processObsV1 st obs).1.map hcOf).Nodup ∧
    ∀ m ∈ (processObsV1 st obs).1, hcOf m ∈ (processObsV1 st obs).2 := by
  by_cases hc : obs.content ≠ emptyStr ∧ hashContent obs.content ∉ st.2
  · simp only [processObsV1, if_pos hc]
    have hnew : hcOf ⟨obs.role, jsTrim obs.content, obs.timestamp⟩ =
        hashContent obs.content := by
      simp only [hcOf]
      rw [ht]
    constructor
    · rw [List.map_append, List.nodup_append]
      refine ⟨h1, by simp, ?_⟩
      intro a ha hb
      simp only [List.map_cons, List.map_nil, List.mem_singleton, hnew] at hb
      rcases List.mem_map.mp ha with ⟨m, hm, hma⟩
      apply hc.2
      rw [← hb, ← hma]
      exact h2 m hm
    · intro m hm
      rcases List.mem_append.mp hm with hm' | hm'
      · exact List.mem_cons_of_mem _ (h2 m hm')
      · simp only [List.mem_singleton] at hm'
        rw [hm', hnew]
        exact List.mem_cons_self _ _
  · simp only [processObsV1, if_neg hc]
    exact ⟨h1, h2⟩

theorem foldl_processObsV1_inv (pass : List Observation)
    (hts : ∀ o ∈ pass, jsTrim o.content = o.content) :
    ∀ st : List Message × List String,
      (st.1.map hcOf).Nodup → (∀ m ∈ st.1, hcOf m ∈ st.2) →
      ((pass.foldl processObsV1 st).1.map hcOf).Nodup ∧
      ∀ m ∈ (pass.foldl processObsV1 st).1, hcOf m ∈ (pass.foldl processObsV1 st).2 := by
  induction pass with
  | nil =>
    intro st h1 h2
    exact ⟨h1, h2⟩
  | cons o rest ih =>
    intro st h1 h2
    rw [List.foldl_cons]
    have ho := hts o (List.mem_cons_self _ _)
    have hstep := processObsV1_inv st o ho h1 h2
    exact ih (fun o' ho' => hts o' (List.mem_cons_of_mem _ ho')) _ hstep.1 hstep.2

theorem foldl_processObsV2_inv (pass : List Observation)
    (hts : ∀ o ∈ pass, jsTrim o.content = o.content) :
    ∀ (news : List Message) (seen : List String),
      (news.map hcOf).Nodup → (∀ m ∈ news, hcOf m ∈ seen) →
      ((pass.foldl processObsV2 (news, seen)).1.map hcOf).Nodup ∧
      (∀ m ∈ (pass.foldl processObsV2 (news, seen)).1,
         hcOf m ∈ (pass.foldl processObsV2 (news, seen)).2) ∧
      seen ⊆ (pass.foldl processObsV2 (news, seen)).2 ∧
      ∀ m ∈ (pass.foldl processObsV2 (news, seen)).1, m ∈ news ∨ hcOf m ∉ seen := by
  induction pass with
  | nil =>
    intro news seen h1 h2
    exact ⟨h1, h2, fun x hx => hx, fun m hm => Or.inl hm⟩
  | cons o rest ih =>
    intro news seen h1 h2
    rw [List.foldl_cons]
    have ho := hts o (List.mem_cons_self _ _)
    have hts' : ∀ o' ∈ rest, jsTrim o'.content = o'.content :=
      fun o' ho' => hts o' (List.mem_cons_of_mem _ ho')
    by_cases hc : o.content ≠ emptyStr ∧ jsTrim o.content ≠ emptyStr ∧
        hashContent o.content ∉ (news, seen).2
    · have hproc : processObsV2 (news, seen) o =
          (news ++ [(⟨o.role, jsTrim o.content, none⟩ : Message)],
           hashContent o.content :: seen) := by
        simp only [processObsV2, if_pos hc]
      rw [hproc]
      have hnew : hcOf (⟨o.role, jsTrim o.content, none⟩ : Message) = hashContent o.content := by
        simp only [hcOf]
        rw [ho]
      have hns : hashContent o.content ∉ seen := hc.2.2
      have h1' : ((news ++ [(⟨o.role, jsTrim o.content, none⟩ : Message)]).map hcOf).Nodup := by
        rw [List.map_append, List.nodup_append]
        refine ⟨h1, by simp, ?_⟩
        intro a ha hb
        simp only [List.map_cons, List.map_nil, List.mem_singleton, hnew] at hb
        rcases List.mem_map.mp ha with ⟨m, hm, hma⟩
        apply hns
        rw [← hb, ← hma]
        exact h2 m hm
      have h2' : ∀ m ∈ news ++ [(⟨o.role, jsTrim o.content, none⟩ : Message)],
          hcOf m ∈ hashContent o.content :: seen := by
        intro m hm
        rcases List.mem_append.mp hm with hm' | hm'
        · exact List.mem_cons_of_mem _ (h2 m hm')
        · simp only [List.mem_singleton] at hm'
          rw [hm', hnew]
          exact List.mem_cons_self _ _
      obtain ⟨hN, hI, hS, hP⟩ := ih hts' _ _ h1' h2'
      refine ⟨hN, hI, ?_, ?_⟩
      · exact fun x hx => hS (List.mem_cons_of_mem _ hx)
      · intro m hm
        rcases hP m hm with hmem | hnot
        · rcases List.mem_append.mp hmem with h' | h'
          · exact Or.inl h'
          · simp only [List.mem_singleton] at h'
            refine Or.inr ?_
            rw [h', hnew]
            exact hns
        · refine Or.inr ?_
          intro hseen
          exact hnot (List.mem_cons_of_mem _ hseen)
    · have hproc : processObsV2 (news, seen) o = (news, seen) := by
        simp only [processObsV2, if_neg hc]
      rw [hproc]
      exact ih hts' news seen h1 h2

theorem runPassV2_inv (st : List Message × List String) (prepend : Bool)
    (pass : List Observation)
    (hts : ∀ o ∈ pass, jsTrim o.content = o.content)
    (h1 : (st.1.map hcOf).Nodup) (h2 : ∀ m ∈ st.1, hcOf m ∈ st.2) :
    ((runPassV2 st prepend pass).1.map hcOf).Nodup ∧
    ∀ m ∈ (runPassV2 st prepend pass).1, hcOf m ∈ (runPassV2 st prepend pass).2 := by
  obtain ⟨hN, hI, hS, hP⟩ :=
    foldl_processObsV2_inv pass hts [] st.2 (by simp) (by simp)
  have hdisj : ∀ m ∈ (pass.foldl processObsV2 ([], st.2)).1, hcOf m ∉ st.2 := by
    intro m hm
    rcases hP m hm with hmem | hnot
    · exact absurd hmem (List.not_mem_nil m)
    · exact hnot
  constructor
  · simp only [runPassV2]
    cases prepend with
    | true =>
      simp only [if_true]
      rw [List.map_append, List.nodup_append]
      refine ⟨hN, h1, ?_⟩
      intro a ha hb
      rcases List.mem_map.mp ha with ⟨m, hm, hma⟩
      rcases List.mem_map.mp hb with ⟨m', hm', hma'⟩
      apply hdisj m hm
      rw [hma, ← hma']
      exact h2 m' hm'
    | false =>
      simp only [Bool.false_eq_true, if_false]
      rw [List.map_append, List.nodup_append]
      refine ⟨h1, hN, ?_⟩
      intro a ha hb
      rcases List.mem_map.mp ha with ⟨m, hm, hma⟩
      rcases List.mem_map.mp hb with ⟨m', hm', hma'⟩
      apply hdisj m' hm'
      rw [hma', ← hma]
      exact h2 m hm
  · simp only [runPassV2]
    cases prepend with
    | true =>
      simp only [if_true]
      intro m hm
      rcases List.mem_append.mp hm with h' | h'
      · exact hI m h'
      · exact hS (h2 m h')
    | false =>
      simp only [Bool.false_eq_true, if_false]
      intro m hm
      rcases List.mem_append.mp hm with h' | h'
      · exact hS (h2 m h')
      · exact hI m h'

theorem runPassesV1_inv_aux (passes : List (List Observation))
    (hts : ∀ p ∈ passes, ∀ o ∈ p, jsTrim o.content = o.content) :
    ∀ st : List Message × List String,
      (st.1.map hcOf).Nodup → (∀ m ∈ st.1, hcOf m ∈ st.2) →
      ((passes.foldl runPassV1 st).1.map hcOf).Nodup ∧
      ∀ m ∈ (passes.foldl runPassV1 st).1, hcOf m ∈ (passes.foldl runPassV1 st).2 := by
  induction passes with
  | nil =>
    intro st h1 h2
    exact ⟨h1, h2⟩
  | cons p rest ih =>
    intro st h1 h2
    rw [List.foldl_cons]
    have hp := hts p (List.mem_cons_self _ _)
    have hstep := foldl_processObsV1_inv p hp st h1 h2
    exact ih (fun p' hp' => hts p' (List.mem_cons_of_mem _ hp')) _ hstep.1 hstep.2

theorem runPassesV2_inv_aux (passes : List (Bool × List Observation))
    (hts : ∀ pb ∈ passes, ∀ o ∈ pb.2, jsTrim o.content = o.content) :
    ∀ st : List Message × List String,
      (st.1.map hcOf).Nodup → (∀ m ∈ st.1, hcOf m ∈ st.2) →
      ((passes.foldl (fun st pb => runPassV2 st pb.1 pb.2) st).1.map hcOf).Nodup ∧
      ∀ m ∈ (passes.foldl (fun st pb => runPassV2 st pb.1 pb.2) st).1,
        hcOf m ∈ (passes.foldl (fun st pb => runPassV2 st pb.1 pb.2) st).2 := by
  induction passes with
  | nil =>
    intro st h1 h2
    exact ⟨h1, h2⟩
  | cons pb rest ih =>
    intro st h1 h2
    rw [List.foldl_cons]
    have hp := hts pb (List.mem_cons_self _ _)
    have hstep := runPassV2_inv st pb.1 pb.2 hp h1 h2
    exact ih (fun p' hp' => hts p' (List.mem_cons_of_mem _ hp')) _ hstep.1 hstep.2

/-- Claim C4: at any point during incremental loading no two accumulator
entries share a fingerprint: every push is guarded by the seen-set
membership test, so after any sequence of extraction passes (either
variant) the fingerprints of the accumulated message contents are pairwise
distinct.  The hypothesis that observed contents are trim-fixed reflects
that `extractMessageContent` always returns a trimmed string
(`htmlToMarkdown` ends with `.trim()`). -/
theorem accumulator_fingerprints_pairwise_distinct
    (passes1 : List (List Observation)) (passes2 : List (Bool × List Observation))
    (ht1 : ∀ p ∈ passes1, ∀ o ∈ p, jsTrim o.content = o.content)
    (ht2 : ∀ pb ∈ passes2, ∀ o ∈ pb.2, jsTrim o.content = o.content) :
    ((runPassesV1 passes1).1.map fun m => hashContent m.content).Nodup ∧
    ((runPassesV2 passes2).1.map fun m => hashContent m.content).Nodup := by
  constructor
  · exact (runPassesV1_inv_aux passes1 ht1 initAcc (by simp [initAcc])
      (by simp [initAcc])).1
  · exact (runPassesV2_inv_aux passes2 ht2 initAcc (by simp [initAcc])
      (by simp [initAcc])).1

/-- Witness for C4 at concrete passes that re-report already-seen
contents. -/
theorem accumulator_fingerprints_pairwise_distinct_witness :
    ((runPassesV1 demoPassesV1).1.map fun m => hashContent m.content).Nodup ∧
    ((runPassesV2 demoPassesV2).1.map fun m => hashContent m.content).Nodup :=
  accumulator_fingerprints_pairwise_distinct demoPassesV1 demoPassesV2
    (by decide) (by decide)

/- ## Helper lemmas: scroll loop -/

theorem scrollLoopAux_le_fuel {S : Type} (V : ScrollView S) (aF : Nat) :
    ∀ (fuel : Nat) (s : S) (stuck : Nat), scrollLoopAux V aF fuel s stuck ≤ fuel := by
  intro fuel
  induction fuel with
  | zero =>
    intro s stuck
    simp [scrollLoopAux]
  | succ f ih =>
    intro s stuck
    simp only [scrollLoopAux]
    repeat' split
    all_goals first
      | omega
      | (rw [Nat.add_comm]; exact Nat.succ_le_succ (ih _ _))

theorem adaptiveSettle_const_height {S : Type} (V : ScrollView S) (h : Int)
    (hh : ∀ t, V.scrollHeight t = h) :
    ∀ (n : Nat) (s : S), (adaptiveSettle V n s h).2 = h := by
  intro n s
  cases n with
  | zero => rfl
  | succ k => simp [adaptiveSettle, hh]

theorem scrollLoopAux_stuck {S : Type} (V : ScrollView S) (aF : Nat) (c h : Int)
    (htop : ∀ t, V.scrollTop t = c) (hh : ∀ t, V.scrollHeight t = h)
    (hc : 10 < c) :
    ∀ (fuel stuck : Nat), stuck < 3 → 3 - stuck ≤ fuel →
      ∀ s : S, scrollLoopAux V aF fuel s stuck = 3 - stuck := by
  intro fuel
  induction fuel with
  | zero =>
    intro stuck h3 hf s
    omega
  | succ f ih =>
    intro stuck h3 hf s
    simp only [scrollLoopAux, htop, hh, adaptiveSettle_const_height V h hh,
      stuckThreshold, sub_self, Int.natAbs_zero, gt_iff_lt, lt_self_iff_false,
      if_false]
    rw [if_pos (by norm_num : (0 : Nat) < 10)]
    have hcneg : ¬ c ≤ 10 := by omega
    by_cases hstuck : stuck + 1 ≥ 3
    · rw [if_pos hstuck]
      omega
    · rw [if_neg hstuck, if_neg hcneg]
      rw [ih (stuck + 1) (by omega) (by omega)]
      omega

set_option maxRecDepth 40000 in
/-- Claim C5 counterexample: on `growView` the scroll position never
changes from the first advance on (`scrollTop` is the constant function
100, far from the origin), yet the loop performs all 500 advance
iterations and exits only at the hard cap, not via stuck detection after
3: the growing scroll extent resets the stuck counter on every
iteration. -/
theorem scroll_loop_stuck_counterexample :
    autoScrollAdvanceCountV1 growView 0 = maxScrolls ∧
    autoScrollAdvanceCountV2 growView 0 = maxScrolls ∧
    stuckThreshold ≠ maxScrolls := by
  refine ⟨by decide, by decide, by decide⟩

/-- Claim C5 (amended): the scroll loop performs at most the hard cap of
500 advance iterations for every view behavior (both variants); and on a
fully static view — neither scroll position nor scroll extent changes,
position above the origin threshold — it exits via stuck detection after
exactly 3 consecutive unchanged advances, well below the hard cap.  (If
the position is stuck but the extent keeps growing, the stuck counter is
reset each iteration and only the hard cap bounds the loop.) -/
theorem scroll_loop_termination :
    (∀ (S : Type) (V : ScrollView S) (s : S),
        autoScrollAdvanceCountV1 V s ≤ maxScrolls ∧
        autoScrollAdvanceCountV2 V s ≤ maxScrolls) ∧
    (∀ (S : Type) (V : ScrollView S) (c h : Int),
        (∀ t, V.scrollTop t = c) → (∀ t, V.scrollHeight t = h) → 10 < c →
        ∀ s : S,
          autoScrollAdvanceCountV1 V s = stuckThreshold ∧
          autoScrollAdvanceCountV2 V s = stuckThreshold ∧
          stuckThreshold < maxScrolls) := by
  constructor
  · intro S V s
    exact ⟨scrollLoopAux_le_fuel V 3 maxScrolls s 0,
           scrollLoopAux_le_fuel V 5 maxScrolls s 0⟩
  · intro S V c h htop hh hc s
    have h1 := scrollLoopAux_stuck V 3 c h htop hh hc maxScrolls 0
      (by norm_num) (by norm_num [maxScrolls]) s
    have h2 := scrollLoopAux_stuck V 5 c h htop hh hc maxScrolls 0
      (by norm_num) (by norm_num [maxScrolls]) s
    refine ⟨?_, ?_, by norm_num [stuckThreshold, maxScrolls]⟩
    · rw [autoScrollAdvanceCountV1, h1]
      rfl
    · rw [autoScrollAdvanceCountV2, h2]
      rfl

/-- Witness for C5 on a concrete fully stuck view. -/
theorem scroll_loop_termination_witness :
    autoScrollAdvanceCountV1 stuckView () = stuckThreshold ∧
    autoScrollAdvanceCountV2 stuckView () = stuckThreshold ∧
    stuckThreshold < maxScrolls :=
  scroll_loop_termination.2 Unit stuckView 100 1000 (fun _ => rfl) (fun _ => rfl)
    (by norm_num) ()

/- ## Claim C6: timestamp formatting -/

/-- Claim C6 counterexample: the 20-digit value parses as a number, so per
the claim it should be rendered as a locale date/time string; the code
instead falls through (the resulting time is not a representable date) and
returns the value unmodified. -/
theorem formatTimestamp_counterexample :
    jsParseInt10 bigNumStr = some 99999999999999999999 ∧
    formatTimestamp renderTag noParseDate bigNumStr = bigNumStr ∧
    formatTimestamp renderTag noParseDate bigNumStr ≠
      renderTag (msInterp 99999999999999999999) := by
  refine ⟨by decide, by decide, by decide⟩

/-- Claim C6 (amended): numeric values are interpreted as Unix time
(seconds iff the parsed number is at most `9999999999`, equivalently at
most 10 decimal digits for non-negative values; milliseconds otherwise)
and rendered via the locale renderer whenever the resulting time is a
representable date; numeric values outside the representable range fall
back to generic date parsing; non-numeric values are parsed as a generic
date string; values that cannot be parsed at all are returned
unmodified. -/
theorem formatTimestamp_characterization (render : Int → String)
    (parseDate : String → Option Int) (value : String) :
    (∀ n : Int, jsParseInt10 value = some n →
      ((msInterp n).natAbs ≤ maxDateMs →
          formatTimestamp render parseDate value = render (msInterp n)) ∧
      (maxDateMs < (msInterp n).natAbs →
          formatTimestamp render parseDate value =
            (match parseDate value with
             | some t => render t
             | none => value))) ∧
    (jsParseInt10 value = none →
      formatTimestamp render parseDate value =
        (match parseDate value with
         | some t => render t
         | none => value)) ∧
    (∀ n : Nat, jsParseInt10 value = some (n : Int) →
      ((Nat.digits 10 n).length ≤ 10 ↔ (n : Int) ≤ secondsThreshold)) := by
  refine ⟨?_, ?_, ?_⟩
  · intro n hn
    constructor
    · intro hle
      simp only [formatTimestamp, hn]
      rw [if_pos hle]
    · intro hgt
      simp only [formatTimestamp, hn]
      rw [if_neg (by omega : ¬ (msInterp n).natAbs ≤ maxDateMs)]
  · intro hn
    simp only [formatTimestamp, hn]
  · intro n _
    constructor
    · intro hlen
      have h2 : n < 10 ^ (Nat.digits 10 n).length :=
        Nat.lt_base_pow_length_digits (by norm_num)
      have h3 : (10 : Nat) ^ (Nat.digits 10 n).length ≤ 10 ^ 10 :=
        Nat.pow_le_pow_right (by norm_num) hlen
      have h4 : n < 10 ^ 10 := lt_of_lt_of_le h2 h3
      have h5 : n < 10000000000 := by
        have : (10 : Nat) ^ 10 = 10000000000 := by norm_num
        omega
      simp only [secondsThreshold]
      omega
    · intro hle
      have hn' : n ≤ 9999999999 := by
        simp only [secondsThreshold] at hle
        omega
      by_cases hn : n = 0
      · simp [hn]
      · have h5 : (10 : Nat) ^ (Nat.digits 10 n).length ≤ 10 * n :=
          Nat.base_pow_length_digits_le 10 n (by norm_num) hn
        have h6 : (10 : Nat) ^ (Nat.digits 10 n).length < 10 ^ 11 := by
          calc (10 : Nat) ^ (Nat.digits 10 n).length ≤ 10 * n := h5
            _ ≤ 10 * 9999999999 := by omega
            _ < 10 ^ 11 := by norm_num
        have h7 := (Nat.pow_lt_pow_iff_right (by norm_num : (1 : Nat) < 10)).mp h6
        omega

/-- Witness for the amended C6: a 10-digit numeric value is interpreted as
seconds and rendered via the locale renderer. -/
theorem formatTimestamp_characterization_witness :
    jsParseInt10 tsSecondsStr = some 1700000000 ∧
    formatTimestamp renderTag noParseDate tsSecondsStr =
      renderTag (msInterp 1700000000) :=
  ⟨by decide,
   ((formatTimestamp_characterization renderTag noParseDate tsSecondsStr).1
      1700000000 (by decide)).1 (by decide)⟩

/- ## Claim C7: role classification -/

/-- Claim C7 counterexample: an element whose `data-message-author-role`
is set to `model` but whose class name contains `query` is classified as
`user` by the code, while the claimed attribute precedence demands
`assistant` (the spec-side `specRolePrecedence`). -/
theorem determineMessageRole_counterexample :
    determineMessageRole (some queryClassStr) (some modelStr) = userRoleStr ∧
    specRolePrecedence (some queryClassStr) (some modelStr) = assistantRoleStr ∧
    userRoleStr ≠ assistantRoleStr := by
  refine ⟨by decide, by decide, by decide⟩

/-- Claim C7 (amended): there is no attribute precedence — the element is
classified as the human participant iff the role attribute equals `user`
or the lowercased class name contains one of the vocabulary substrings
(user/query/human/prompt), even when a role attribute with a different
value is present; everything else defaults to assistant. -/
theorem determineMessageRole_characterization
    (className dataRole : Option String) :
    (determineMessageRole className dataRole = userRoleStr ↔
      dataRole = some userRoleStr ∨
      strIncludes (jsToLower (className.getD emptyStr)) userRoleStr = true ∨
      strIncludes (jsToLower (className.getD emptyStr)) clsQuery = true ∨
      strIncludes (jsToLower (className.getD emptyStr)) clsHuman = true ∨
      strIncludes (jsToLower (className.getD emptyStr)) clsPrompt = true) ∧
    (determineMessageRole className dataRole = userRoleStr ∨
     determineMessageRole className dataRole = assistantRoleStr) := by
  constructor
  · simp only [determineMessageRole]
    split
    next hb =>
      simp only [Bool.or_eq_true, beq_iff_eq] at hb
      constructor
      · intro _
        tauto
      · intro _
        rfl
    next hb =>
      simp only [Bool.or_eq_true, beq_iff_eq] at hb
      constructor
      · intro h
        exact absurd h (by decide)
      · intro h
        exact absurd (by tauto) hb
  · simp only [determineMessageRole]
    split
    · exact Or.inl rfl
    · exact Or.inr rfl

/- ## Claim C8: markdown renderer structure -/

theorem append_emptyStr (s : String) : s ++ emptyStr = s := by
  cases s with
  | mk data =>
    show String.mk (data ++ []) = String.mk data
    rw [List.append_nil]

theorem bodyAux_eq_specJoinBlocks (block : Message → String) :
    ∀ (msgs : List Message) (i total : Nat), i + msgs.length = total →
      bodyAux block total i msgs = specJoinBlocks block msgs := by
  intro msgs
  induction msgs with
  | nil =>
    intro i total _
    rfl
  | cons m rest ih =>
    intro i total h
    cases rest with
    | nil =>
      have hnot : ¬ i < total - 1 := by
        simp only [List.length_cons, List.length_nil] at h
        omega
      simp only [bodyAux, if_neg hnot, specJoinBlocks]
      rw [append_emptyStr, append_emptyStr]
    | cons m2 rest2 =>
      have hlt : i < total - 1 := by
        simp only [List.length_cons] at h
        omega
      have hrec : i + 1 + (m2 :: rest2).length = total := by
        simp only [List.length_cons] at h ⊢
        omega
      have hstep : bodyAux block total i (m :: m2 :: rest2) =
          block m ++ (if i < total - 1 then sepRule else emptyStr) ++
            bodyAux block total (i + 1) (m2 :: rest2) := by
        conv_lhs => rw [bodyAux]
      have hspec : specJoinBlocks block (m :: m2 :: rest2) =
          block m ++ sepRule ++ specJoinBlocks block (m2 :: rest2) := by
        simp only [specJoinBlocks]
      rw [hstep, if_pos hlt, ih (i + 1) total hrec, hspec]

/-- Claim C8 counterexample: variant 2's renderer ignores timestamps — a
message carrying a timestamp produces an output that does not contain it
anywhere, so its role header is not suffixed with it (variant 1's block
does contain it). -/
theorem formatAsMarkdownV2_ignores_timestamp :
    demoTsMsg.timestamp = some demoTime ∧
    strIncludes (formatAsMarkdownV2 demoDate demoTz [demoTsMsg] demoTitle)
      demoTime = false ∧
    strIncludes (messageBlockV1 demoTsMsg) demoTime = true := by
  refine ⟨rfl, by decide, by decide⟩

/-- Claim C8 (amended): both renderer variants emit the title line, the
provenance line with the injected date/time and timezone label, the
summary line with total and per-role counts, a leading rule, then one
block per message with a `---` rule exactly between consecutive blocks
(omitted after the final one).  In variant 1 the role header is suffixed
with the message's timestamp whenever present (`messageBlockV1`); variant
2's role headers never carry a timestamp suffix (`messageBlockV2`). -/
theorem formatAsMarkdown_structure (d tz : String) (msgs : List Message)
    (title : String) :
    formatAsMarkdownV1 d tz msgs title =
      mdHeader totalOpenV1 geminiMidV1 d tz msgs title ++
        specJoinBlocks messageBlockV1 msgs ∧
    formatAsMarkdownV2 d tz msgs title =
      mdHeader totalOpenV2 geminiMidV2 d tz msgs title ++
        specJoinBlocks messageBlockV2 msgs := by
  constructor
  · rw [formatAsMarkdownV1,
      bodyAux_eq_specJoinBlocks messageBlockV1 msgs 0 msgs.length (by omega)]
  · rw [formatAsMarkdownV2,
      bodyAux_eq_specJoinBlocks messageBlockV2 msgs 0 msgs.length (by omega)]
